import Mathlib

/-!
Verification of the RNA-editing pipeline's collation / selection /
normalization / FDR-correction core (`src/Python_scripts/`).

The tabular data is embedded shallowly: pandas Series / DataFrame columns
become `List ℚ` or `List (Option ℚ)` (with `none` for NaN / `NA`), per-row
records become structures, and the external statistical primitives of
scipy (`norm.ppf`, `ndtr`) are abstract function parameters `ppf cdf : ℚ → ℚ`
about which only facts true of the standard normal quantile function and
CDF are assumed (strict monotonicity, `Φ 0 = 1/2`, `Φ (Φ⁻¹ p) = p`).
-/

/-!
## Average ranking (`method='average'` of `pandas.Series.rank` / `scipy.stats.rankdata`)

Elements tied at the same value receive the mean of the ordinal ranks they
would jointly occupy.  For a value `x` inside the list `xs` that mean has the
standard closed form `#{y ∈ xs | y < x} + (#{y ∈ xs | y = x} + 1) / 2`,
which is how we embed it (1-based ranks, as in pandas/scipy).
-/

def avgRank (xs : List ℚ) (x : ℚ) : ℚ :=
  (xs.countP (fun y => y < x) : ℚ) + ((xs.countP (fun y => y = x) : ℚ) + 1) / 2

/-!
## `inverse_normal_transformation` (`run_phase6_normalization.py`, lines 18–46)

```
non_na_values = series.dropna(); N = len(non_na_values)
if N < 2: return pd.Series(np.nan, index=series.index)
ranked = series.rank(method='average', na_option='keep')
percentiles = (ranked - 0.5) / N
transformed = pd.Series(norm.ppf(percentiles.dropna()), index=non_na_values.index)
result = pd.Series(np.nan, index=series.index); result.update(transformed)
```

`na_option='keep'` ranks the non-missing entries among themselves and keeps
NaN at missing positions, so position `i` holding `some x` is mapped to
`ppf ((avgRank nonNA x - 1/2) / N)` and `none` stays `none`; if `N < 2` the
whole output is missing.  `ppf` stands for `scipy.stats.norm.ppf`.
-/

def inverse_normal_transformation (ppf : ℚ → ℚ) (series : List (Option ℚ)) :
    List (Option ℚ) :=
  if (series.filterMap id).length < 2 then series.map (fun _ => none)
  else series.map (fun o => o.map (fun x =>
    ppf ((avgRank (series.filterMap id) x - 1/2) / ((series.filterMap id).length : ℚ))))

/-!
## `inverse_normal_transform` (`normalize_and_covariate_phase6_v2.py`, lines 11–27)

```
ranked_data = rankdata(data, method='average')
n = len(data)
normalized_ranks = (ranked_data - 0.5) / n
return ndtr(normalized_ranks)
```

Note that the function applies `ndtr` — the standard normal *CDF* — to the
normalized ranks, although its own docstring says it is equivalent to
`norm.ppf((rank(X, ties='average') - 0.5) / n)`.  It performs no
missing-value handling and no `n < 2` check.  `cdf` stands for
`scipy.special.ndtr`.
-/

def inverse_normal_transform (cdf : ℚ → ℚ) (data : List ℚ) : List ℚ :=
  data.map (fun x => cdf ((avgRank data x - 1/2) / data.length))

/-- Modelled from the spec (§4.3, steps 2–4): rank with average ties, map
rank `r` to `p = (r - 0.5) / n`, then apply the inverse cumulative
distribution function (`ppf`) of the standard normal.  Used as the
specification side when comparing against `inverse_normal_transform`. -/
def rankNormalizerSpec (ppf : ℚ → ℚ) (data : List ℚ) : List ℚ :=
  data.map (fun x => ppf ((avgRank data x - 1/2) / data.length))

/-!
## Per-individual aggregation and consensus (`run_phase3_individual_processing_v5.py`)

`load_and_aggregate_raw_calls` produces one record per raw call that
survived the edit-level and canonical-change filters, with columns
`SiteID, CellType, Tool, EditLevel`; `Tool` is `'REDML'` or `'REDItools'`
(lines 188, 206–211).  The consensus filter (lines 228–231) is

```
consensus_check = raw_df.groupby('SiteID')['Tool'].nunique().reset_index(name='ToolCount')
consensus_sites = consensus_check[consensus_check['ToolCount'] == 2]['SiteID']
consensus_df = raw_df[raw_df['SiteID'].isin(consensus_sites)].copy()
```

i.e. a record is kept iff the number of distinct tools reporting its
`SiteID` equals 2.  `nunique` over a group is embedded as `dedup.length`
of the tools of the records sharing the `SiteID`.
-/

inductive Tool where
  | REDML : Tool
  | REDItools : Tool
  deriving DecidableEq

structure RawCall where
  siteID : String
  cellType : String
  tool : Tool
  editLevel : ℚ

/-- `raw_df.groupby('SiteID')['Tool'].nunique()` evaluated at `SiteID = s`. -/
def toolCount (raw : List RawCall) (s : String) : ℕ :=
  (((raw.filter (fun r => r.siteID == s)).map (fun r => r.tool)).dedup).length

/-- `consensus_df = raw_df[raw_df['SiteID'].isin(consensus_sites)]` where
`consensus_sites` are the SiteIDs with `ToolCount == 2`. -/
def consensus_df (raw : List RawCall) : List RawCall :=
  raw.filter (fun r => toolCount raw r.siteID == 2)

/-!
## Population collation and representative-site selection
   (`collate_and_select_phase5_v2.py`; `collate_and_select_phase5.py` is the
   same pipeline without the sample-size filter, i.e. `min_samples = 0`)

After collation the population matrix has one row per
`(SiteID, Phase3_Gene, CellType)` with one `Option ℚ` editing ratio per
individual.  The selection steps (lines 81–117):

```
sample_counts = population_matrix_raw.notna().sum(axis=1)
population_matrix_filtered = population_matrix_raw[sample_counts >= MIN_SAMPLES]
population_matrix_filtered['Median_Raw_ER_Population'] = population_matrix_filtered.median(axis=1)
idx_max = df_selection.groupby(['Phase3_Gene', 'CellType'])['Median_Raw_ER_Population'].idxmax()
final_features_df = df_selection.loc[idx_max]
final_features_df['FeatureID'] = final_features_df['Phase3_Gene'] + '__' + final_features_df['CellType']
```

`median(axis=1)` skips missing values and is undefined (NaN) for an
all-missing row.  `idxmax` skips NaN medians and returns the first row
attaining the maximum; on a group whose medians are all NaN the
`groupby`/`loc` pair raises (`idxmax` raises a `ValueError` in current
pandas; in older pandas it yields a NaN label on which `.loc` raises a
`KeyError`) — embedded as `Except.error`.  `groupby` key order only
permutes the output rows and is kept as first-appearance order here.
-/

structure PopRow where
  siteID : String
  gene : String
  cellType : String
  vals : List (Option ℚ)

/-- `notna().sum(axis=1)` for one row. -/
def countSamples (r : PopRow) : ℕ :=
  r.vals.countP (fun v => v.isSome)

/-- `population_matrix_raw[sample_counts >= MIN_SAMPLES]`. -/
def filteredRows (rows : List PopRow) (min_samples : ℕ) : List PopRow :=
  rows.filter (fun r => min_samples ≤ countSamples r)

/-- `pandas.median` of a list of values: mean of the two middle order
statistics for even length, the middle one for odd length, undefined for
an empty list. -/
def median (l : List ℚ) : Option ℚ :=
  if l.isEmpty then none
  else
    if (l.mergeSort (fun a b => a ≤ b)).length % 2 = 1 then
      some ((l.mergeSort (fun a b => a ≤ b)).getD
        ((l.mergeSort (fun a b => a ≤ b)).length / 2) 0)
    else
      some (((l.mergeSort (fun a b => a ≤ b)).getD
          ((l.mergeSort (fun a b => a ≤ b)).length / 2 - 1) 0
        + (l.mergeSort (fun a b => a ≤ b)).getD
          ((l.mergeSort (fun a b => a ≤ b)).length / 2) 0) / 2)

/-- `median(axis=1)` of one row: the median of its non-missing values. -/
def rowMedian (r : PopRow) : Option ℚ :=
  median (r.vals.filterMap id)

/-- The rows of one `(Gene, CellType)` group, in row order. -/
def groupOf (rows : List PopRow) (k : String × String) : List PopRow :=
  rows.filter (fun r => (r.gene, r.cellType) = k)

/-- The distinct `(Gene, CellType)` keys in first-appearance order. -/
def groupKeysOf : List PopRow → List (String × String)
  | [] => []
  | r :: rest => (r.gene, r.cellType) ::
      (groupKeysOf rest).filter (fun k => ¬k = (r.gene, r.cellType))

/-- `Series.idxmax` over one group's medians: the first row attaining the
maximum defined median, or `none` when no row has a defined median. -/
def idxmaxFirst : List PopRow → Option (PopRow × ℚ)
  | [] => none
  | r :: rest =>
    match rowMedian r, idxmaxFirst rest with
    | none, acc => acc
    | some v, none => some (r, v)
    | some v, some (rm, w) => if v < w then some (rm, w) else some (r, v)

/-- One pass over the group keys: pick each group's `idxmax` row and
re-key it as `Gene__CellType`; a group without a defined median raises. -/
def selectRepresentatives (f : String × String → Option PopRow) :
    List (String × String) → Except String (List (String × List (Option ℚ)))
  | [] => Except.ok []
  | k :: ks =>
    match f k with
    | none => Except.error ("attempt to get argmax of an all-NA group")
    | some r =>
      match selectRepresentatives f ks with
      | Except.error e => Except.error e
      | Except.ok out => Except.ok ((r.gene ++ "__" ++ r.cellType, r.vals) :: out)

/-- Steps 2–4 of `run_phase5_collation_and_selection` (sample-size filter,
per-group `idxmax` selection, `Gene__CellType` re-keying). -/
def run_phase5_selection (rows : List PopRow) (min_samples : ℕ) :
    Except String (List (String × List (Option ℚ))) :=
  selectRepresentatives
    (fun k => (idxmaxFirst (groupOf (filteredRows rows min_samples) k)).map Prod.fst)
    (groupKeysOf (filteredRows rows min_samples))

def rowB1 : PopRow := ⟨"site1", "APP", "Bcell", [some (1/10)]⟩

def rowB2 : PopRow := ⟨"site2", "APP", "Bcell", [some (3/10)]⟩

def rowB3 : PopRow := ⟨"site3", "APP", "Bcell", [some (2/10)]⟩

/-- Spec Scenario B: three sites for Gene `APP`, CellType `Bcell` with
median raw editing ratios 0.1, 0.3, 0.2. -/
def scenarioBRows : List PopRow := [rowB1, rowB2, rowB3]

/-!
## Phase-4 global QC and quantification (`run_phase4_quantification_v3.py`)

For each Phase-3 site the quantifier computes a `GlobalFilterStatus`
(lines 205–230): `'GermlineSNP'` when the VCF genotype check flags the
site, else the `'SJ_Filtered_<{t}bp'` string when the site lies within
the splice-site threshold of a GTF exon boundary, else `'PASS'`.  The
matrix-building loop (lines 241–263) then *skips* every site whose
status is not `'PASS'`:

```
for site_id, annot in site_annotation.items():
    if annot['GlobalFilterStatus'] != 'PASS':
        continue
    ...
    matrix_rows.append(row)
```

so only PASS sites appear in the output matrix (the same skip exists in
`run_phase4_quantification.py`, lines 129–130).  A site is summarised by
the inputs of that decision: its ID, the germline-SNP flag and the
minimum splice distance.  Downstream, `collate_and_select_phase5_v2.py`
line 43 keeps exactly the rows whose `GlobalFilterStatus` equals
`'PASS'`.
-/

structure SiteInfo where
  siteID : String
  isGermlineSNP : Bool
  minDistToSplice : ℕ

/-- The `GlobalFilterStatus` computed for one site (v3 lines 214–220). -/
def globalStatus (splice_site_threshold : ℕ) (s : SiteInfo) : String :=
  if s.isGermlineSNP then "GermlineSNP"
  else if s.minDistToSplice ≤ splice_site_threshold then
    "SJ_Filtered_<" ++ toString splice_site_threshold ++ "bp"
  else "PASS"

/-- The `(SiteID, GlobalFilterStatus)` pairs of the rows that reach the
Phase-4 output matrix (v3 lines 241–263: non-PASS sites are skipped). -/
def phase4MatrixRows (splice_site_threshold : ℕ) (sites : List SiteInfo) :
    List (String × String) :=
  (sites.filter (fun s => globalStatus splice_site_threshold s = "PASS")).map
    (fun s => (s.siteID, globalStatus splice_site_threshold s))

/-- One row of a Phase-4 matrix file as read back in Phase 5. -/
structure P4Row where
  siteID : String
  globalFilterStatus : String

/-- `df[df['GlobalFilterStatus'] == 'PASS']` of
`collate_and_select_phase5_v2.py`, line 43. -/
def phase5PassRows (rows : List P4Row) : List P4Row :=
  rows.filter (fun r => r.globalFilterStatus = "PASS")

/-!
## Benjamini–Hochberg FDR correction
   (`qvalue_filter_phase8.py` line 61 and `process_fastqtl_results_p8.py`
   line 59, both via `statsmodels multipletests(..., method='fdr_bh')`)

`multipletests` with `method='fdr_bh'` sorts the p-values ascending
(`np.argsort`), computes `ecdffactor[i] = (i+1)/n`, marks
`reject = pvals_sorted <= ecdffactor*alpha` extended downward to every
index below the largest rejected one (equivalently: position `i` is
rejected iff some `j ≥ i` has `p_(j) ≤ (j+1)/n * alpha`), computes the
corrected p-values (q-values) as the suffix minimum of
`pvals_sorted / ecdffactor` clipped at 1, and scatters both arrays back
to the original order.  `qvalue_filter_phase8.py` passes `alpha=0.05`
and `process_fastqtl_results_p8.py` uses the statsmodels default, also
0.05.  Both store `reject` as the significance mark
(`FDR_significant` / `Significant` columns).  `np.argsort` is embedded
as a stable index sort (ties receive identical `(reject, q)` pairs
either way, since for equal sorted p-values the suffix structure gives
equal outputs).
-/

/-- The suffix pass of `fdrcorrection`: at 0-based sorted position `i`
with `n` total tests, returns (suffix-any of the rejection test,
suffix-min of `p/ecdffactor` seeded with the clip bound 1, and the
per-position `(reject, qvalue)` pairs). -/
def bhAux (n : ℕ) (α : ℚ) : ℕ → List ℚ → Bool × ℚ × List (Bool × ℚ)
  | _, [] => (false, 1, [])
  | i, p :: rest =>
    ((decide (p ≤ (((i : ℚ) + 1) / (n : ℚ)) * α) || (bhAux n α (i+1) rest).1),
     min (p / (((i : ℚ) + 1) / (n : ℚ))) (bhAux n α (i+1) rest).2.1,
     ((decide (p ≤ (((i : ℚ) + 1) / (n : ℚ)) * α) || (bhAux n α (i+1) rest).1),
       min (p / (((i : ℚ) + 1) / (n : ℚ))) (bhAux n α (i+1) rest).2.1)
       :: (bhAux n α (i+1) rest).2.2)

/-- `np.argsort` of the p-values (stable sort of the positions). -/
def argsortIdx (pvals : List ℚ) : List ℕ :=
  (List.range pvals.length).mergeSort
    (fun i j => pvals.getD i 0 < pvals.getD j 0
      ∨ (pvals.getD i 0 = pvals.getD j 0 ∧ i ≤ j))

/-- The `(reject, qvalue)` pairs in sorted order. -/
def bhPairsSorted (pvals : List ℚ) (α : ℚ) : List (Bool × ℚ) :=
  (bhAux pvals.length α 0 ((argsortIdx pvals).map (fun i => pvals.getD i 0))).2.2

/-- `statsmodels fdrcorrection(pvals, alpha, method='indep')`: the
`(reject, qvalue)` pair for every input row, in input order. -/
def fdrcorrection (pvals : List ℚ) (α : ℚ) : List (Bool × ℚ) :=
  (List.range pvals.length).map
    (fun k => (bhPairsSorted pvals α).getD ((argsortIdx pvals).indexOf k) (false, 1))

/-!
## Fatal-path exit behaviour of the collation and FDR stages

`collate_and_select_phase5_v2.py` (and the v1 variant): when no input
files match the pattern it prints `FATAL ERROR: No files found matching
pattern: ...` to stderr and `return`s (lines 27–29); when zero files
load successfully it prints `No data successfully processed. Exiting.`
to stderr and `return`s (lines 71–73).  In both cases control returns
normally to the `__main__` block, whose `try/except` only exits with
code 1 on an *exception* — a plain return falls through, so the process
exits with code 0.  The same pattern is in `run_fdr_correction`
(`qvalue_filter_phase8.py` lines 42–44): `FATAL ERROR: No valid data
loaded for correction. Exiting.` then `return`, hence exit code 0.  An
uncaught exception inside the stage (e.g. the all-NA-group selection
failure) does reach the handler and exits 1.  The models below return
`(exit code, stderr lines)`.
-/

/-- Exit-code/stderr model of `collate_and_select_phase5_v2.py`
(`__main__` + `run_phase5_collation_and_selection`), as a function of the
glob result, the successfully loaded per-individual tables and
`--min_samples`. -/
def run_phase5_collation_model (input_files : List String)
    (loaded : List (List PopRow)) (min_samples : ℕ) : ℕ × List String :=
  if input_files.isEmpty then
    (0, ["FATAL ERROR: No files found matching pattern"])
  else if loaded.isEmpty then
    (0, ["No data successfully processed. Exiting."])
  else
    match run_phase5_selection loaded.flatten min_samples with
    | Except.ok _ => (0, [])
    | Except.error e => (1, ["FATAL UNCAUGHT ERROR in Phase 5 Collation: " ++ e])

/-- Exit-code/stderr/result model of `qvalue_filter_phase8.py`
(`__main__` + `run_fdr_correction`), as a function of the successfully
loaded p-value tables. -/
def run_fdr_correction_model (loaded : List (List ℚ)) (α : ℚ) :
    ℕ × List String × Option (List (Bool × ℚ)) :=
  if loaded.isEmpty then
    (0, ["FATAL ERROR: No valid data loaded for correction. Exiting."], none)
  else
    (0, [], some (fdrcorrection loaded.flatten α))

/-!
## Phase-6 covariate merge (`normalize_and_covariate_phase6_v2.py`)

Index bookkeeping of `run_normalization_and_merge`:

```
df_covariates_merged = pd.concat(covariates, axis=1)                  # line 79
individuals = df_phenotype.index.intersection(df_covariates_merged.index)  # line 81
df_phenotype = df_phenotype.loc[individuals]                          # line 83
df_covariates_final = df_covariates_merged.loc[individuals].fillna(0) # line 84
df_covariates_final = df_covariates_final.loc[:, df_covariates_final.nunique() > 1]  # 87
df_phenotype_int_fastqtl = df_phenotype_int.T                         # line 102
```

`covariates` always contains the AEI table (fatal if unloadable) and
optionally the genotype-PC and PEER tables (load failures are warnings,
lines 61–75).  `concat(axis=1)`'s outer join gives the union of the
covariate indexes; `intersection` restricts the phenotype index to that
union; both saved matrices are then indexed by the same `individuals`
(the INT transform and the transpose act on values/orientation only,
and dropping constant covariate *columns* does not change the
individual axis).  Tables are embedded by their individual index;
pandas may sort the union, which does not affect membership.
-/

/-- Union of index lists, first appearance kept. -/
def dedupFirst : List String → List String
  | [] => []
  | x :: rest => x :: (dedupFirst rest).filter (fun y => ¬y = x)

/-- `pd.concat(covariates, axis=1).index` — union of the loaded
covariate tables' individual indexes. -/
def mergedCovariateIndex (covs : List (List String)) : List String :=
  dedupFirst covs.flatten

/-- `df_phenotype.index.intersection(df_covariates_merged.index)` —
phenotype individuals restricted to those present in some covariate
table, in phenotype order. -/
def phase6Individuals (phenoIdx : List String) (covs : List (List String)) :
    List String :=
  phenoIdx.filter (fun i => i ∈ mergedCovariateIndex covs)

/-- The loaded covariate tables: AEI always, genotype PCs and PEER
factors when their loads succeed. -/
def covariateTables (aei : List String) (pcs peer : Option (List String)) :
    List (List String) :=
  [aei] ++ pcs.toList ++ peer.toList

/-- Individual set (columns) of the saved phenotype matrix
(`df_phenotype.loc[individuals]`, then INT and transpose). -/
def savedPhenotypeIndex (phenoIdx : List String) (covs : List (List String)) :
    List String :=
  phase6Individuals phenoIdx covs

/-- Individual set (rows) of the saved covariate matrix
(`df_covariates_merged.loc[individuals].fillna(0)` with constant
columns dropped). -/
def savedCovariateIndex (phenoIdx : List String) (covs : List (List String)) :
    List String :=
  phase6Individuals phenoIdx covs

/-- Counting auxiliary: everything strictly below `x`, together with
everything equal to `x`, is strictly below any `y > x`. -/
theorem countP_lt_add_countP_eq_le {x y : ℚ} (xs : List ℚ) (hxy : x < y) :
    xs.countP (fun z => z < x) + xs.countP (fun z => z = x)
      ≤ xs.countP (fun z => z < y) := by
  induction xs with
  | nil => simp
  | cons z t ih =>
    by_cases hzx : z < x
    · have hzy : z < y := hzx.trans hxy
      have hne : ¬z = x := ne_of_lt hzx
      simp only [List.countP_cons, decide_eq_true_eq, hzx, hzy, hne, if_true, if_false]
      omega
    · by_cases hze : z = x
      · subst hze
        simp only [List.countP_cons, decide_eq_true_eq, lt_irrefl, hxy, if_true, if_false]
        omega
      · by_cases hzy : z < y
        · simp only [List.countP_cons, decide_eq_true_eq, hzx, hze, hzy, if_true, if_false]
          omega
        · simp only [List.countP_cons, decide_eq_true_eq, hzx, hze, hzy, if_true, if_false]
          omega

/-- Average ranks are strictly compatible with the value order: a smaller
value always receives a strictly smaller average rank (only membership of
the larger value is needed). -/
theorem avgRank_lt_avgRank {xs : List ℚ} {x y : ℚ} (hy : y ∈ xs) (hxy : x < y) :
    avgRank xs x < avgRank xs y := by
  have hsub : (xs.countP (fun z => z < x)) + (xs.countP (fun z => z = x))
      ≤ xs.countP (fun z => z < y) := countP_lt_add_countP_eq_le xs hxy
  have hcy : 1 ≤ xs.countP (fun z => z = y) := by
    have : (0 : ℕ) < xs.countP (fun z => z = y) := by
      rw [List.countP_pos_iff]
      exact ⟨y, hy, by simp⟩
    omega
  have h1 : avgRank xs x
      ≤ (xs.countP (fun z => z < x) : ℚ) + (xs.countP (fun z => z = x) : ℚ) + 1/2 := by
    unfold avgRank
    have hnn : (0 : ℚ) ≤ (xs.countP (fun z => z = x) : ℚ) := by positivity
    linarith
  have h2 : (xs.countP (fun z => z < y) : ℚ) + 1 ≤ avgRank xs y := by
    unfold avgRank
    have : (1 : ℚ) ≤ (xs.countP (fun z => z = y) : ℚ) := by exact_mod_cast hcy
    linarith
  have hsubQ : (xs.countP (fun z => z < x) : ℚ) + (xs.countP (fun z => z = x) : ℚ)
      ≤ (xs.countP (fun z => z < y) : ℚ) := by exact_mod_cast hsub
  linarith

/-- Positions of a mapped list, as `getD` with an in-bounds index. -/
theorem getD_map_of_lt {α β : Type} (f : α → β) (l : List α) (i : ℕ) (d : β)
    (hi : i < l.length) : (l.map f).getD i d = f l[i] := by
  rw [List.getD_eq_getElem?_getD, List.getElem?_map, List.getElem?_eq_getElem hi]
  rfl

/-- C1: the claim states that the Rank Normalizer maps each non-missing
element's average rank `r` to `p = (r - 0.5)/n` and then applies the
*inverse* cumulative distribution function of the standard normal to `p`.
`normalize_and_covariate_phase6_v2.py` instead applies `ndtr`, the normal
CDF itself, to `p` (contradicting its own docstring, which says it is
equivalent to `norm.ppf((rank(X) - 0.5)/n)`).  Under the characteristic
facts of the standard normal CDF/quantile pair — `cdf` strictly increasing,
`cdf 0 = 1/2`, and `cdf (ppf (1/4)) = 1/4` — the code's output on the
two-element input `[1, 2]` differs from the claimed output. -/
theorem claim_C1_v2_applies_cdf_not_ppf (cdf ppf : ℚ → ℚ)
    (hmono : StrictMono cdf) (h0 : cdf 0 = 1/2) (hq : cdf (ppf (1/4)) = 1/4) :
    inverse_normal_transform cdf [1, 2] ≠ rankNormalizerSpec ppf [1, 2] := by
  have hcode : inverse_normal_transform cdf [1, 2] = [cdf (1/4), cdf (3/4)] := by
    norm_num [inverse_normal_transform, avgRank, List.countP_cons]
  have hspec : rankNormalizerSpec ppf [1, 2] = [ppf (1/4), ppf (3/4)] := by
    norm_num [rankNormalizerSpec, avgRank, List.countP_cons]
  rw [hcode, hspec]
  intro h
  have hhead : cdf (1/4) = ppf (1/4) := by
    injection h
  have h1 : (1/2 : ℚ) < cdf (1/4) := by
    have := hmono (show (0 : ℚ) < 1/4 by norm_num)
    linarith [h0 ▸ this]
  have h2 : ppf (1/4) < 0 := by
    by_contra hc
    push_neg at hc
    have := hmono.le_iff_le.mpr hc
    rw [h0, hq] at this
    norm_num at this
  rw [hhead] at h1
  linarith

/-- Witness for `claim_C1_v2_applies_cdf_not_ppf`: the hypotheses are
satisfiable, e.g. by the strictly increasing pair
`cdf = fun x => 1/2 + x/2`, `ppf = fun p => 2p - 1` (inverse of each
other and `cdf 0 = 1/2`). -/
theorem claim_C1_v2_applies_cdf_not_ppf_witness :
    inverse_normal_transform (fun x => 1/2 + x/2) [1, 2]
      ≠ rankNormalizerSpec (fun p => 2*p - 1) [1, 2] :=
  claim_C1_v2_applies_cdf_not_ppf (fun x => 1/2 + x/2) (fun p => 2*p - 1)
    (fun a b h => by dsimp only; linarith)
    (by norm_num) (by norm_num)

/-- C3 counterexample: on a sequence with a single observed value (so
`n = 1 < 2`), the claim requires the entire output to be missing;
`inverse_normal_transform` of `normalize_and_covariate_phase6_v2.py`
instead returns the present (non-missing) value `cdf ((1 - 0.5)/1) =
cdf (1/2)` — here `3/4` for the concrete strictly-increasing
`cdf = fun x => 1/2 + x/2`. -/
theorem claim_C3_v2_singleton_not_missing :
    inverse_normal_transform (fun x => 1/2 + x/2) [1/2] = [3/4] := by
  norm_num [inverse_normal_transform, avgRank, List.countP_cons]

/-- C3 (amended): `inverse_normal_transformation` of
`run_phase6_normalization.py` preserves the length of its input; when the
input has at least two non-missing values the output has exactly the same
missing positions as the input; when it has fewer than two non-missing
values the entire output is missing.  (The v2 `inverse_normal_transform`
has no missing-value handling at all — see
`claim_C3_v2_singleton_not_missing`.) -/
theorem claim_C3_p6_missing_preserved (ppf : ℚ → ℚ) (series : List (Option ℚ)) :
    (inverse_normal_transformation ppf series).length = series.length
    ∧ (2 ≤ (series.filterMap id).length →
        ∀ i : ℕ, (inverse_normal_transformation ppf series)[i]? = some none
          ↔ series[i]? = some none)
    ∧ ((series.filterMap id).length < 2 →
        ∀ i : ℕ, i < series.length →
          (inverse_normal_transformation ppf series)[i]? = some none) := by
  unfold inverse_normal_transformation
  by_cases h : (series.filterMap id).length < 2
  · simp only [h, if_true]
    refine ⟨by simp, fun h2 => absurd h (by omega), fun _ i hi => ?_⟩
    rw [List.getElem?_map, List.getElem?_eq_getElem hi]
    rfl
  · simp only [h, if_false]
    refine ⟨by simp, fun _ i => ?_, fun h2 => (h2).elim⟩
    rw [List.getElem?_map]
    cases hv : series[i]? with
    | none => simp
    | some o => cases o <;> simp

/-- Witness for `claim_C3_p6_missing_preserved`: on `[some 1, none, some 2]`
(two observed values) the missing position is preserved, and on the
singleton `[some 1]` (one observed value) the output is missing. -/
theorem claim_C3_p6_missing_preserved_witness :
    (inverse_normal_transformation id [some 1, none, some 2])[1]? = some none
    ∧ (inverse_normal_transformation id [some 1])[0]? = some none := by
  constructor
  · exact ((claim_C3_p6_missing_preserved id [some 1, none, some 2]).2.1
      (by simp) 1).mpr rfl
  · exact (claim_C3_p6_missing_preserved id [some 1]).2.2 (by simp) 0 (by simp)

/-- C9: on a fully-observed input sequence, both Rank Normalizer
implementations are rank-order preserving: a strictly smaller input value
yields a strictly smaller output value (so distinct values yield distinct
outputs in the input's rank order), and equal input values receive
identical outputs.  `ppf`/`cdf` are the final maps of the two
implementations (`scipy.stats.norm.ppf` and `scipy.special.ndtr`), both
strictly increasing functions. -/
theorem claim_C9_rank_order_preserved (ppf cdf : ℚ → ℚ)
    (hppf : StrictMono ppf) (hcdf : StrictMono cdf)
    (xs : List ℚ) (i j : ℕ) (hi : i < xs.length) (hj : j < xs.length) :
    (xs[i] < xs[j] →
      (inverse_normal_transform cdf xs).getD i 0
          < (inverse_normal_transform cdf xs).getD j 0
      ∧ ∃ a b, (inverse_normal_transformation ppf (xs.map some))[i]? = some (some a)
          ∧ (inverse_normal_transformation ppf (xs.map some))[j]? = some (some b)
          ∧ a < b)
    ∧ (xs[i] = xs[j] →
      (inverse_normal_transform cdf xs).getD i 0
          = (inverse_normal_transform cdf xs).getD j 0
      ∧ (inverse_normal_transformation ppf (xs.map some))[i]?
          = (inverse_normal_transformation ppf (xs.map some))[j]?) := by
  have hnonna : (xs.map some).filterMap id = xs := by
    simp [List.filterMap_map]
  have hlenQ : (0 : ℚ) < (xs.length : ℚ) := by
    have : 0 < xs.length := by omega
    exact_mod_cast this
  have hv2 : ∀ (k : ℕ) (hk : k < xs.length),
      (inverse_normal_transform cdf xs).getD k 0
        = cdf ((avgRank xs xs[k] - 1/2) / (xs.length : ℚ)) := by
    intro k hk
    unfold inverse_normal_transform
    rw [getD_map_of_lt _ _ _ _ hk]
  constructor
  · intro hlt
    have hij : i ≠ j := by
      intro h
      subst h
      exact lt_irrefl _ hlt
    have h2 : ¬xs.length < 2 := by omega
    have hrank : avgRank xs xs[i] < avgRank xs xs[j] :=
      avgRank_lt_avgRank (List.getElem_mem hj) hlt
    have hpct : (avgRank xs xs[i] - 1/2) / (xs.length : ℚ)
        < (avgRank xs xs[j] - 1/2) / (xs.length : ℚ) :=
      div_lt_div_of_pos_right (by linarith) hlenQ
    refine ⟨?_, ?_⟩
    · rw [hv2 i hi, hv2 j hj]
      exact hcdf hpct
    · unfold inverse_normal_transformation
      rw [hnonna]
      simp only [h2, if_false, List.getElem?_map]
      rw [List.getElem?_eq_getElem hi, List.getElem?_eq_getElem hj]
      exact ⟨ppf ((avgRank xs xs[i] - 1/2) / (xs.length : ℚ)),
             ppf ((avgRank xs xs[j] - 1/2) / (xs.length : ℚ)),
             by simp, by simp, hppf hpct⟩
  · intro heq
    refine ⟨?_, ?_⟩
    · rw [hv2 i hi, hv2 j hj, heq]
    · unfold inverse_normal_transformation
      rw [hnonna]
      by_cases hN : xs.length < 2
      · simp only [hN, if_true, List.getElem?_map]
        rw [List.getElem?_eq_getElem hi, List.getElem?_eq_getElem hj]
        rfl
      · simp only [hN, if_false, List.getElem?_map]
        rw [List.getElem?_eq_getElem hi, List.getElem?_eq_getElem hj, heq]

/-- Witness for `claim_C9_rank_order_preserved`: with the strictly
increasing concrete maps `cdf = fun x => 1/2 + x/2`, `ppf = fun p => 2p - 1`
and the fully-observed input `[1/2, 1/4]`, the smaller value `1/4` at
position 1 receives a strictly smaller output than `1/2` at position 0 in
both implementations. -/
theorem claim_C9_rank_order_preserved_witness :
    (inverse_normal_transform (fun x => 1/2 + x/2) [1/2, 1/4]).getD 1 0
      < (inverse_normal_transform (fun x => 1/2 + x/2) [1/2, 1/4]).getD 0 0
    ∧ ∃ a b,
      (inverse_normal_transformation (fun p => 2*p - 1) ([(1:ℚ)/2, 1/4].map some))[1]?
          = some (some a)
      ∧ (inverse_normal_transformation (fun p => 2*p - 1) ([(1:ℚ)/2, 1/4].map some))[0]?
          = some (some b)
      ∧ a < b :=
  (claim_C9_rank_order_preserved (fun p => 2*p - 1) (fun x => 1/2 + x/2)
    (fun a b h => by dsimp only; linarith)
    (fun a b h => by dsimp only; linarith)
    [1/2, 1/4] 1 0 (by norm_num) (by norm_num)).1 (by norm_num)

/-- A list of tools deduplicates to exactly two entries iff both tools
occur in it. -/
theorem dedup_length_two_iff (l : List Tool) :
    l.dedup.length = 2 ↔ Tool.REDML ∈ l ∧ Tool.REDItools ∈ l := by
  rw [← List.card_toFinset]
  constructor
  · intro h
    constructor
    · by_contra hR
      have hsub : l.toFinset ⊆ {Tool.REDItools} := by
        intro t ht
        rw [List.mem_toFinset] at ht
        cases t with
        | REDML => exact absurd ht hR
        | REDItools => simp
      have := Finset.card_le_card hsub
      simp only [Finset.card_singleton] at this
      omega
    · by_contra hR
      have hsub : l.toFinset ⊆ {Tool.REDML} := by
        intro t ht
        rw [List.mem_toFinset] at ht
        cases t with
        | REDML => simp
        | REDItools => exact absurd ht hR
      have := Finset.card_le_card hsub
      simp only [Finset.card_singleton] at this
      omega
  · rintro ⟨h1, h2⟩
    have hsub2 : ({Tool.REDML, Tool.REDItools} : Finset Tool) ⊆ l.toFinset := by
      intro t ht
      rw [List.mem_toFinset]
      simp only [Finset.mem_insert, Finset.mem_singleton] at ht
      rcases ht with rfl | rfl <;> assumption
    have hsub1 : l.toFinset ⊆ ({Tool.REDML, Tool.REDItools} : Finset Tool) := by
      intro t _
      cases t <;> simp
    have ha := Finset.card_le_card hsub2
    have hb := Finset.card_le_card hsub1
    have hc : ({Tool.REDML, Tool.REDItools} : Finset Tool).card = 2 := by decide
    omega

/-- The tools reported for `SiteID = s`, characterised. -/
theorem mem_toolsOf_iff (raw : List RawCall) (s : String) (u : Tool) :
    u ∈ (raw.filter (fun r => r.siteID == s)).map (fun r => r.tool)
      ↔ ∃ r ∈ raw, r.siteID = s ∧ r.tool = u := by
  simp only [List.mem_map, List.mem_filter, beq_iff_eq]
  constructor
  · rintro ⟨r, ⟨hr, hs⟩, ht⟩
    exact ⟨r, hr, hs, ht⟩
  · rintro ⟨r, hr, hs, ht⟩
    exact ⟨r, ⟨hr, hs⟩, ht⟩

/-- C2: the per-individual aggregator's consensus step keeps every raw
record (hence both tools' EditLevels) of a site reported by both tools,
and drops every record of a site reported by only one tool. -/
theorem claim_C2_consensus_gate (raw : List RawCall) (s : String) (t : Tool) :
    ((∃ r1 ∈ raw, r1.siteID = s ∧ r1.tool = Tool.REDML) →
     (∃ r2 ∈ raw, r2.siteID = s ∧ r2.tool = Tool.REDItools) →
      ∀ r ∈ raw, r.siteID = s → r ∈ consensus_df raw)
    ∧ ((∀ r ∈ raw, r.siteID = s → r.tool = t) →
        ∀ r ∈ consensus_df raw, r.siteID ≠ s) := by
  constructor
  · intro h1 h2 r hr hrs
    have hcount : toolCount raw s = 2 := by
      unfold toolCount
      exact (dedup_length_two_iff _).mpr
        ⟨(mem_toolsOf_iff raw s _).mpr h1, (mem_toolsOf_iff raw s _).mpr h2⟩
    rw [consensus_df, List.mem_filter]
    refine ⟨hr, ?_⟩
    rw [hrs, hcount]
    rfl
  · intro hall r hrc hrs
    rw [consensus_df, List.mem_filter] at hrc
    obtain ⟨hr, hp⟩ := hrc
    rw [hrs] at hp
    have hcount : toolCount raw s = 2 := by
      simpa using hp
    unfold toolCount at hcount
    obtain ⟨hR, hT⟩ := (dedup_length_two_iff _).mp hcount
    obtain ⟨r1, hr1, hs1, ht1⟩ := (mem_toolsOf_iff raw s _).mp hR
    obtain ⟨r2, hr2, hs2, ht2⟩ := (mem_toolsOf_iff raw s _).mp hT
    have e1 : Tool.REDML = t := ht1 ▸ hall r1 hr1 hs1
    have e2 : Tool.REDItools = t := ht2 ▸ hall r2 hr2 hs2
    rw [← e1] at e2
    exact Tool.noConfusion e2

/-- Witness for `claim_C2_consensus_gate`, spec Scenario A: Site
`1:1000:A>G` reported at EditLevel 0.5 by both tools in the same cell
type is kept with both records; Site `1:2000:T>C` reported only by
RED-ML is excluded. -/
theorem claim_C2_consensus_gate_witness :
    (⟨"1:1000:A>G", "Bcell", Tool.REDML, 1/2⟩ : RawCall)
        ∈ consensus_df [⟨"1:1000:A>G", "Bcell", Tool.REDML, 1/2⟩,
            ⟨"1:1000:A>G", "Bcell", Tool.REDItools, 1/2⟩,
            ⟨"1:2000:T>C", "Bcell", Tool.REDML, 3/10⟩]
    ∧ (⟨"1:1000:A>G", "Bcell", Tool.REDItools, 1/2⟩ : RawCall)
        ∈ consensus_df [⟨"1:1000:A>G", "Bcell", Tool.REDML, 1/2⟩,
            ⟨"1:1000:A>G", "Bcell", Tool.REDItools, 1/2⟩,
            ⟨"1:2000:T>C", "Bcell", Tool.REDML, 3/10⟩]
    ∧ (⟨"1:2000:T>C", "Bcell", Tool.REDML, 3/10⟩ : RawCall)
        ∉ consensus_df [⟨"1:1000:A>G", "Bcell", Tool.REDML, 1/2⟩,
            ⟨"1:1000:A>G", "Bcell", Tool.REDItools, 1/2⟩,
            ⟨"1:2000:T>C", "Bcell", Tool.REDML, 3/10⟩] := by
  have hboth := claim_C2_consensus_gate
    [⟨"1:1000:A>G", "Bcell", Tool.REDML, 1/2⟩,
     ⟨"1:1000:A>G", "Bcell", Tool.REDItools, 1/2⟩,
     ⟨"1:2000:T>C", "Bcell", Tool.REDML, 3/10⟩] "1:1000:A>G" Tool.REDML
  have hone := claim_C2_consensus_gate
    [⟨"1:1000:A>G", "Bcell", Tool.REDML, 1/2⟩,
     ⟨"1:1000:A>G", "Bcell", Tool.REDItools, 1/2⟩,
     ⟨"1:2000:T>C", "Bcell", Tool.REDML, 3/10⟩] "1:2000:T>C" Tool.REDML
  have hin := hboth.1
    ⟨_, List.mem_cons_self _ _, rfl, rfl⟩
    ⟨_, List.mem_cons_of_mem _ (List.mem_cons_self _ _), rfl, rfl⟩
  have honly : ∀ r ∈ [(⟨"1:1000:A>G", "Bcell", Tool.REDML, 1/2⟩ : RawCall),
      ⟨"1:1000:A>G", "Bcell", Tool.REDItools, 1/2⟩,
      ⟨"1:2000:T>C", "Bcell", Tool.REDML, 3/10⟩],
      r.siteID = "1:2000:T>C" → r.tool = Tool.REDML := by
    intro r hr hrs
    rcases List.mem_cons.mp hr with rfl | hr2
    · exact absurd hrs (by decide)
    · rcases List.mem_cons.mp hr2 with rfl | hr3
      · exact absurd hrs (by decide)
      · rcases List.mem_cons.mp hr3 with rfl | hr4
        · rfl
        · exact absurd hr4 (List.not_mem_nil _)
  refine ⟨?_, ?_, ?_⟩
  · exact hin _ (List.mem_cons_self _ _) rfl
  · exact hin _ (List.mem_cons_of_mem _ (List.mem_cons_self _ _)) rfl
  · intro hmem
    exact hone.2 honly _ hmem rfl

theorem median_singleton (x : ℚ) : median [x] = some x := by
  simp [median]

theorem mem_groupKeysOf_iff (rows : List PopRow) (k : String × String) :
    k ∈ groupKeysOf rows ↔ ∃ r ∈ rows, k = (r.gene, r.cellType) := by
  induction rows with
  | nil => simp [groupKeysOf]
  | cons r rest ih =>
    rw [groupKeysOf, List.mem_cons, List.mem_filter]
    simp only [decide_eq_true_eq]
    constructor
    · rintro (rfl | ⟨hk, _⟩)
      · exact ⟨r, List.mem_cons_self _ _, rfl⟩
      · obtain ⟨r2, hr2, he⟩ := ih.mp hk
        exact ⟨r2, List.mem_cons_of_mem _ hr2, he⟩
    · rintro ⟨r2, hr2, he⟩
      rcases List.mem_cons.mp hr2 with rfl | hr3
      · exact Or.inl he
      · by_cases hkk : k = (r.gene, r.cellType)
        · exact Or.inl hkk
        · exact Or.inr ⟨ih.mpr ⟨r2, hr3, he⟩, hkk⟩

theorem idxmaxFirst_cons_none {r0 : PopRow} {rest : List PopRow}
    (h0 : rowMedian r0 = none) :
    idxmaxFirst (r0 :: rest) = idxmaxFirst rest := by
  simp only [idxmaxFirst, h0]

theorem idxmaxFirst_cons_some_none {r0 : PopRow} {rest : List PopRow} {v0 : ℚ}
    (h0 : rowMedian r0 = some v0) (hrec : idxmaxFirst rest = none) :
    idxmaxFirst (r0 :: rest) = some (r0, v0) := by
  simp only [idxmaxFirst, h0, hrec]

theorem idxmaxFirst_cons_some_some {r0 : PopRow} {rest : List PopRow}
    {v0 w : ℚ} {rm : PopRow}
    (h0 : rowMedian r0 = some v0) (hrec : idxmaxFirst rest = some (rm, w)) :
    idxmaxFirst (r0 :: rest) = if v0 < w then some (rm, w) else some (r0, v0) := by
  simp only [idxmaxFirst, h0, hrec]

theorem idxmaxFirst_mem {l : List PopRow} {r : PopRow} {v : ℚ}
    (h : idxmaxFirst l = some (r, v)) : r ∈ l ∧ rowMedian r = some v := by
  induction l generalizing r v with
  | nil => simp [idxmaxFirst] at h
  | cons r0 rest ih =>
    cases h0 : rowMedian r0 with
    | none =>
      rw [idxmaxFirst_cons_none h0] at h
      obtain ⟨hm, he⟩ := ih h
      exact ⟨List.mem_cons_of_mem _ hm, he⟩
    | some v0 =>
      cases hrec : idxmaxFirst rest with
      | none =>
        rw [idxmaxFirst_cons_some_none h0 hrec] at h
        rw [Option.some_inj] at h
        injection h with h1 h2
        subst h1
        subst h2
        exact ⟨List.mem_cons_self _ _, h0⟩
      | some p =>
        obtain ⟨r1, w⟩ := p
        rw [idxmaxFirst_cons_some_some h0 hrec] at h
        by_cases hvw : v0 < w
        · rw [if_pos hvw, Option.some_inj] at h
          injection h with h1 h2
          subst h1
          subst h2
          obtain ⟨hm, he⟩ := ih hrec
          exact ⟨List.mem_cons_of_mem _ hm, he⟩
        · rw [if_neg hvw, Option.some_inj] at h
          injection h with h1 h2
          subst h1
          subst h2
          exact ⟨List.mem_cons_self _ _, h0⟩

theorem idxmaxFirst_eq_none_iff (l : List PopRow) :
    idxmaxFirst l = none ↔ ∀ r ∈ l, rowMedian r = none := by
  induction l with
  | nil => simp [idxmaxFirst]
  | cons r0 rest ih =>
    cases h0 : rowMedian r0 with
    | none =>
      rw [idxmaxFirst_cons_none h0, ih]
      constructor
      · intro hall r hr
        rcases List.mem_cons.mp hr with rfl | hr2
        · exact h0
        · exact hall r hr2
      · intro hall r hr
        exact hall r (List.mem_cons_of_mem _ hr)
    | some v0 =>
      constructor
      · intro h
        cases hrec : idxmaxFirst rest with
        | none => rw [idxmaxFirst_cons_some_none h0 hrec] at h; exact absurd h (by simp)
        | some p =>
          obtain ⟨r1, w⟩ := p
          rw [idxmaxFirst_cons_some_some h0 hrec] at h
          split at h <;> simp at h
      · intro hall
        exact absurd h0 (by rw [hall r0 (List.mem_cons_self _ _)]; simp)

theorem idxmaxFirst_le {l : List PopRow} {r : PopRow} {v : ℚ}
    (h : idxmaxFirst l = some (r, v)) :
    ∀ r' ∈ l, ∀ w, rowMedian r' = some w → w ≤ v := by
  induction l generalizing r v with
  | nil => simp [idxmaxFirst] at h
  | cons r0 rest ih =>
    intro r' hr' w hw
    cases h0 : rowMedian r0 with
    | none =>
      rw [idxmaxFirst_cons_none h0] at h
      rcases List.mem_cons.mp hr' with rfl | hr2
      · rw [h0] at hw
        exact absurd hw (by simp)
      · exact ih h r' hr2 w hw
    | some v0 =>
      cases hrec : idxmaxFirst rest with
      | none =>
        rw [idxmaxFirst_cons_some_none h0 hrec] at h
        rw [Option.some_inj] at h
        injection h with h1 h2
        subst h1
        subst h2
        rcases List.mem_cons.mp hr' with rfl | hr2
        · rw [h0] at hw
          rw [Option.some_inj] at hw
          subst hw
          exact le_refl _
        · rw [(idxmaxFirst_eq_none_iff rest).mp hrec r' hr2] at hw
          exact absurd hw (by simp)
      | some p =>
        obtain ⟨r1, w1⟩ := p
        rw [idxmaxFirst_cons_some_some h0 hrec] at h
        by_cases hvw : v0 < w1
        · rw [if_pos hvw, Option.some_inj] at h
          injection h with h1 h2
          subst h1
          subst h2
          rcases List.mem_cons.mp hr' with rfl | hr2
          · rw [h0] at hw
            rw [Option.some_inj] at hw
            subst hw
            exact le_of_lt hvw
          · exact ih hrec r' hr2 w hw
        · rw [if_neg hvw, Option.some_inj] at h
          injection h with h1 h2
          subst h1
          subst h2
          rcases List.mem_cons.mp hr' with rfl | hr2
          · rw [h0] at hw
            rw [Option.some_inj] at hw
            subst hw
            exact le_refl _
          · have hle := ih hrec r' hr2 w hw
            push_neg at hvw
            linarith

theorem idxmaxFirst_eq_first_max {pre post : List PopRow} {r : PopRow} {v : ℚ}
    (hmed : rowMedian r = some v)
    (hpre : ∀ r' ∈ pre, ∀ w, rowMedian r' = some w → w < v)
    (hle : ∀ r' ∈ pre ++ r :: post, ∀ w, rowMedian r' = some w → w ≤ v) :
    idxmaxFirst (pre ++ r :: post) = some (r, v) := by
  induction pre with
  | nil =>
    simp only [List.nil_append] at hle ⊢
    cases hrec : idxmaxFirst post with
    | none => exact idxmaxFirst_cons_some_none hmed hrec
    | some p =>
      obtain ⟨r1, w1⟩ := p
      rw [idxmaxFirst_cons_some_some hmed hrec]
      have hrm := idxmaxFirst_mem hrec
      have hw1 : w1 ≤ v := hle r1 (List.mem_cons_of_mem _ hrm.1) w1 hrm.2
      rw [if_neg (not_lt.mpr hw1)]
  | cons p pre' ih =>
    simp only [List.cons_append] at hle ⊢
    have hih : idxmaxFirst (pre' ++ r :: post) = some (r, v) :=
      ih (fun r' hr' w hw => hpre r' (List.mem_cons_of_mem _ hr') w hw)
        (fun r' hr' w hw => hle r' (List.mem_cons_of_mem _ hr') w hw)
    cases h0 : rowMedian p with
    | none => rw [idxmaxFirst_cons_none h0, hih]
    | some vp =>
      rw [idxmaxFirst_cons_some_some h0 hih]
      have hvp : vp < v := hpre p (List.mem_cons_self _ _) vp h0
      rw [if_pos hvp]

theorem selectRepresentatives_cons_none {f : String × String → Option PopRow}
    {k0 : String × String} {ks : List (String × String)} (hf : f k0 = none) :
    selectRepresentatives f (k0 :: ks)
      = Except.error ("attempt to get argmax of an all-NA group") := by
  simp only [selectRepresentatives, hf]

theorem selectRepresentatives_cons_some_error {f : String × String → Option PopRow}
    {k0 : String × String} {ks : List (String × String)} {r : PopRow} {e : String}
    (hf : f k0 = some r) (hrec : selectRepresentatives f ks = Except.error e) :
    selectRepresentatives f (k0 :: ks) = Except.error e := by
  simp only [selectRepresentatives, hf, hrec]

theorem selectRepresentatives_cons_some_ok {f : String × String → Option PopRow}
    {k0 : String × String} {ks : List (String × String)} {r : PopRow}
    {out : List (String × List (Option ℚ))}
    (hf : f k0 = some r) (hrec : selectRepresentatives f ks = Except.ok out) :
    selectRepresentatives f (k0 :: ks)
      = Except.ok ((r.gene ++ "__" ++ r.cellType, r.vals) :: out) := by
  simp only [selectRepresentatives, hf, hrec]

theorem selectRepresentatives_ok_mem {f : String × String → Option PopRow}
    {ks : List (String × String)} {out : List (String × List (Option ℚ))}
    (h : selectRepresentatives f ks = Except.ok out) :
    ∀ k ∈ ks, ∃ r, f k = some r ∧ (r.gene ++ "__" ++ r.cellType, r.vals) ∈ out := by
  induction ks generalizing out with
  | nil =>
    intro k hk
    exact absurd hk (List.not_mem_nil _)
  | cons k0 ks ih =>
    intro k hk
    cases hf : f k0 with
    | none =>
      rw [selectRepresentatives_cons_none hf] at h
      exact absurd h (by simp)
    | some r0 =>
      cases hrec : selectRepresentatives f ks with
      | error e =>
        rw [selectRepresentatives_cons_some_error hf hrec] at h
        exact absurd h (by simp)
      | ok out0 =>
        rw [selectRepresentatives_cons_some_ok hf hrec] at h
        injection h with h
        subst h
        rcases List.mem_cons.mp hk with rfl | hk2
        · exact ⟨r0, hf, List.mem_cons_self _ _⟩
        · obtain ⟨r, hfr, hmem⟩ := ih hrec k hk2
          exact ⟨r, hfr, List.mem_cons_of_mem _ hmem⟩

theorem selectRepresentatives_ok_sources {f : String × String → Option PopRow}
    {ks : List (String × String)} {out : List (String × List (Option ℚ))}
    (h : selectRepresentatives f ks = Except.ok out) :
    ∀ e ∈ out, ∃ k ∈ ks, ∃ r, f k = some r
      ∧ e = (r.gene ++ "__" ++ r.cellType, r.vals) := by
  induction ks generalizing out with
  | nil =>
    rw [selectRepresentatives] at h
    injection h with h
    subst h
    intro e he
    exact absurd he (List.not_mem_nil _)
  | cons k0 ks ih =>
    intro e he
    cases hf : f k0 with
    | none =>
      rw [selectRepresentatives_cons_none hf] at h
      exact absurd h (by simp)
    | some r0 =>
      cases hrec : selectRepresentatives f ks with
      | error e2 =>
        rw [selectRepresentatives_cons_some_error hf hrec] at h
        exact absurd h (by simp)
      | ok out0 =>
        rw [selectRepresentatives_cons_some_ok hf hrec] at h
        injection h with h
        subst h
        rcases List.mem_cons.mp he with rfl | he2
        · exact ⟨k0, List.mem_cons_self _ _, r0, hf, rfl⟩
        · obtain ⟨k, hk, r, hfr, hee⟩ := ih hrec e he2
          exact ⟨k, List.mem_cons_of_mem _ hk, r, hfr, hee⟩

theorem selectRepresentatives_error_of_none {f : String × String → Option PopRow}
    {ks : List (String × String)} {k : String × String}
    (hk : k ∈ ks) (hf : f k = none) :
    ∃ msg, selectRepresentatives f ks = Except.error msg := by
  induction ks with
  | nil => exact absurd hk (List.not_mem_nil _)
  | cons k0 ks ih =>
    cases hf0 : f k0 with
    | none => exact ⟨_, selectRepresentatives_cons_none hf0⟩
    | some r0 =>
      rcases List.mem_cons.mp hk with rfl | hk2
      · rw [hf] at hf0
        exact absurd hf0 (by simp)
      · obtain ⟨m, hm⟩ := ih hk2
        exact ⟨m, selectRepresentatives_cons_some_error hf0 hm⟩

/-- C6: whenever the Phase-5 selection completes, each `(Gene, CellType)`
group contributes exactly the first row (in row order) attaining the
maximal defined median editing ratio among the rows surviving the
minimum-sample filter, re-keyed as `Gene__CellType` with its individual
values retained. -/
theorem claim_C6_selector_picks_first_max_median
    (rows : List PopRow) (min_samples : ℕ) (g c : String)
    (out : List (String × List (Option ℚ))) (r : PopRow) (v : ℚ)
    (pre post : List PopRow)
    (hok : run_phase5_selection rows min_samples = Except.ok out)
    (hgrp : groupOf (filteredRows rows min_samples) (g, c) = pre ++ r :: post)
    (hmed : rowMedian r = some v)
    (hpre : ∀ r' ∈ pre, ∀ w, rowMedian r' = some w → w < v)
    (hmax : ∀ r' ∈ groupOf (filteredRows rows min_samples) (g, c), ∀ w,
        rowMedian r' = some w → w ≤ v) :
    (g ++ "__" ++ c, r.vals) ∈ out := by
  have hrmem : r ∈ groupOf (filteredRows rows min_samples) (g, c) := by
    rw [hgrp]
    exact List.mem_append_right _ (List.mem_cons_self _ _)
  have hkey : (r.gene, r.cellType) = (g, c) := by
    have := (List.mem_filter.mp hrmem).2
    simpa using this
  have hrfil : r ∈ filteredRows rows min_samples := (List.mem_filter.mp hrmem).1
  have hkmem : (g, c) ∈ groupKeysOf (filteredRows rows min_samples) :=
    (mem_groupKeysOf_iff _ _).mpr ⟨r, hrfil, hkey.symm⟩
  have hidx : idxmaxFirst (groupOf (filteredRows rows min_samples) (g, c))
      = some (r, v) := by
    rw [hgrp]
    exact idxmaxFirst_eq_first_max hmed hpre (hgrp ▸ hmax)
  unfold run_phase5_selection at hok
  obtain ⟨r0, hf0, hmem⟩ := selectRepresentatives_ok_mem hok (g, c) hkmem
  rw [hidx] at hf0
  simp only [Option.map_some'] at hf0
  rw [Option.some_inj] at hf0
  subst hf0
  have hg : r.gene = g := congrArg Prod.fst hkey
  have hc : r.cellType = c := congrArg Prod.snd hkey
  rw [hg, hc] at hmem
  exact hmem

theorem rowMedian_rowB1 : rowMedian rowB1 = some (1/10) := by
  simp [rowB1, rowMedian, median_singleton]

theorem rowMedian_rowB2 : rowMedian rowB2 = some (3/10) := by
  simp [rowB2, rowMedian, median_singleton]

theorem rowMedian_rowB3 : rowMedian rowB3 = some (2/10) := by
  simp [rowB3, rowMedian, median_singleton]

theorem idxmaxFirst_scenarioB : idxmaxFirst scenarioBRows = some (rowB2, 3/10) := by
  have h3 : idxmaxFirst [rowB3] = some (rowB3, 2/10) :=
    idxmaxFirst_cons_some_none rowMedian_rowB3 rfl
  have h23 : idxmaxFirst [rowB2, rowB3] = some (rowB2, 3/10) := by
    rw [idxmaxFirst_cons_some_some rowMedian_rowB2 h3, if_neg (by norm_num)]
  show idxmaxFirst (rowB1 :: [rowB2, rowB3]) = some (rowB2, 3/10)
  rw [idxmaxFirst_cons_some_some rowMedian_rowB1 h23, if_pos (by norm_num)]

theorem run_phase5_selection_scenarioB :
    run_phase5_selection scenarioBRows 1
      = Except.ok [("APP" ++ "__" ++ "Bcell", [some ((3:ℚ)/10)])] := by
  unfold run_phase5_selection
  have hkeys : groupKeysOf (filteredRows scenarioBRows 1) = [("APP", "Bcell")] := rfl
  rw [hkeys]
  have hf : (fun k => (idxmaxFirst (groupOf (filteredRows scenarioBRows 1) k)).map
      Prod.fst) ("APP", "Bcell") = some rowB2 := by
    show (idxmaxFirst (groupOf (filteredRows scenarioBRows 1) ("APP", "Bcell"))).map
      Prod.fst = some rowB2
    rw [show groupOf (filteredRows scenarioBRows 1) ("APP", "Bcell") = scenarioBRows
      from rfl, idxmaxFirst_scenarioB]
    rfl
  exact @selectRepresentatives_cons_some_ok
    (fun k => (idxmaxFirst (groupOf (filteredRows scenarioBRows 1) k)).map Prod.fst)
    ("APP", "Bcell") [] rowB2 [] hf rfl

/-- Witness for `claim_C6_selector_picks_first_max_median`, spec Scenario
B: with medians `[0.1, 0.3, 0.2]` for Gene `APP`, CellType `Bcell`, the
site with median `0.3` is selected as `APP__Bcell`. -/
theorem claim_C6_selector_picks_first_max_median_witness :
    ∃ out, run_phase5_selection scenarioBRows 1 = Except.ok out
      ∧ ("APP" ++ "__" ++ "Bcell", [some ((3:ℚ)/10)]) ∈ out := by
  refine ⟨[("APP" ++ "__" ++ "Bcell", [some ((3:ℚ)/10)])],
    run_phase5_selection_scenarioB, ?_⟩
  have hpre : ∀ r' ∈ [rowB1], ∀ w, rowMedian r' = some w → w < 3/10 := by
    intro r' hr' w hw
    rcases List.mem_cons.mp hr' with rfl | h2
    · rw [rowMedian_rowB1, Option.some_inj] at hw
      subst hw
      norm_num
    · exact absurd h2 (List.not_mem_nil _)
  have hmax : ∀ r' ∈ groupOf (filteredRows scenarioBRows 1) ("APP", "Bcell"),
      ∀ w, rowMedian r' = some w → w ≤ 3/10 := by
    intro r' hr' w hw
    have hr2 : r' ∈ [rowB1, rowB2, rowB3] := hr'
    rcases List.mem_cons.mp hr2 with rfl | hr3
    · rw [rowMedian_rowB1, Option.some_inj] at hw
      subst hw
      norm_num
    · rcases List.mem_cons.mp hr3 with rfl | hr4
      · rw [rowMedian_rowB2, Option.some_inj] at hw
        subst hw
        norm_num
      · rcases List.mem_cons.mp hr4 with rfl | hr5
        · rw [rowMedian_rowB3, Option.some_inj] at hw
          subst hw
          norm_num
        · exact absurd hr5 (List.not_mem_nil _)
  exact claim_C6_selector_picks_first_max_median scenarioBRows 1 "APP" "Bcell"
    [("APP" ++ "__" ++ "Bcell", [some ((3:ℚ)/10)])] rowB2 (3/10) [rowB1] [rowB3]
    run_phase5_selection_scenarioB rfl rowMedian_rowB2 hpre hmax

/-- C8 counterexample: a `(Gene, CellType)` group in which every row's
median is undefined (all individual values missing) makes the selection
raise — the stage aborts instead of silently omitting the group's
Feature as the claim requires. -/
theorem claim_C8_allNA_group_raises :
    run_phase5_selection [⟨"siteX", "GENE1", "Bcell", [none, none]⟩] 0
      = Except.error ("attempt to get argmax of an all-NA group") := rfl

/-- C8 (amended): a `(Gene, CellType)` group with no defined median makes
`run_phase5_collation_and_selection` raise (pandas `groupby`/`idxmax`
fails on an all-NA group), so the stage aborts rather than silently
omitting the group; and every emitted Feature comes from a row with a
defined median — an all-missing row never wins selection. -/
theorem claim_C8_allNA_group_aborts_and_never_wins
    (rows : List PopRow) (min_samples : ℕ) :
    (∀ out, run_phase5_selection rows min_samples = Except.ok out →
      ∀ e ∈ out, ∃ r ∈ filteredRows rows min_samples,
        (rowMedian r).isSome ∧ e = (r.gene ++ "__" ++ r.cellType, r.vals))
    ∧ (∀ r ∈ filteredRows rows min_samples,
        (∀ r' ∈ groupOf (filteredRows rows min_samples) (r.gene, r.cellType),
          rowMedian r' = none) →
        ∃ msg, run_phase5_selection rows min_samples = Except.error msg) := by
  constructor
  · intro out hok e he
    unfold run_phase5_selection at hok
    obtain ⟨k, _, r, hfr, hee⟩ := selectRepresentatives_ok_sources hok e he
    cases hidx : idxmaxFirst (groupOf (filteredRows rows min_samples) k) with
    | none =>
      rw [hidx] at hfr
      exact absurd hfr (by simp)
    | some p =>
      obtain ⟨r1, v⟩ := p
      rw [hidx] at hfr
      simp only [Option.map_some'] at hfr
      rw [Option.some_inj] at hfr
      subst hfr
      obtain ⟨hm, hmed⟩ := idxmaxFirst_mem hidx
      exact ⟨r1, (List.mem_filter.mp hm).1, by simp [hmed], hee⟩
  · intro r hr hall
    unfold run_phase5_selection
    have hk : (r.gene, r.cellType) ∈ groupKeysOf (filteredRows rows min_samples) :=
      (mem_groupKeysOf_iff _ _).mpr ⟨r, hr, rfl⟩
    have hfnone : (idxmaxFirst (groupOf (filteredRows rows min_samples)
        (r.gene, r.cellType))).map Prod.fst = none := by
      rw [(idxmaxFirst_eq_none_iff _).mpr hall]
      rfl
    exact selectRepresentatives_error_of_none hk hfnone

/-- Witness for `claim_C8_allNA_group_aborts_and_never_wins`: an all-NA
group aborts the stage, and a completed run's winner has a defined
median. -/
theorem claim_C8_allNA_group_aborts_and_never_wins_witness :
    (∃ msg, run_phase5_selection [⟨"siteY", "GENE2", "Tcell", [none]⟩] 0
        = Except.error msg)
    ∧ (∃ r ∈ filteredRows [⟨"siteZ", "GENE3", "Tcell", [some (2/5)]⟩] 0,
        (rowMedian r).isSome
        ∧ ("GENE3" ++ "__" ++ "Tcell", [some ((2:ℚ)/5)])
            = (r.gene ++ "__" ++ r.cellType, r.vals)) := by
  constructor
  · refine (claim_C8_allNA_group_aborts_and_never_wins
      [⟨"siteY", "GENE2", "Tcell", [none]⟩] 0).2
      ⟨"siteY", "GENE2", "Tcell", [none]⟩ (List.mem_cons_self _ _) ?_
    intro r' hr'
    have hr2 : r' ∈ [(⟨"siteY", "GENE2", "Tcell", [none]⟩ : PopRow)] := hr'
    rcases List.mem_cons.mp hr2 with rfl | h
    · rfl
    · exact absurd h (List.not_mem_nil _)
  · have hm : rowMedian ⟨"siteZ", "GENE3", "Tcell", [some ((2:ℚ)/5)]⟩
        = some (2/5) := by
      simp [rowMedian, median_singleton]
    have hidx : idxmaxFirst [⟨"siteZ", "GENE3", "Tcell", [some ((2:ℚ)/5)]⟩]
        = some (⟨"siteZ", "GENE3", "Tcell", [some (2/5)]⟩, 2/5) :=
      idxmaxFirst_cons_some_none hm rfl
    have heval : run_phase5_selection [⟨"siteZ", "GENE3", "Tcell", [some ((2:ℚ)/5)]⟩] 0
        = Except.ok [("GENE3" ++ "__" ++ "Tcell", [some ((2:ℚ)/5)])] := by
      unfold run_phase5_selection
      have hkeys : groupKeysOf
          (filteredRows [⟨"siteZ", "GENE3", "Tcell", [some ((2:ℚ)/5)]⟩] 0)
          = [("GENE3", "Tcell")] := rfl
      rw [hkeys]
      have hf : (fun k => (idxmaxFirst (groupOf
          (filteredRows [⟨"siteZ", "GENE3", "Tcell", [some ((2:ℚ)/5)]⟩] 0) k)).map
          Prod.fst) ("GENE3", "Tcell")
          = some ⟨"siteZ", "GENE3", "Tcell", [some (2/5)]⟩ := by
        show (idxmaxFirst (groupOf
          (filteredRows [⟨"siteZ", "GENE3", "Tcell", [some ((2:ℚ)/5)]⟩] 0)
          ("GENE3", "Tcell"))).map Prod.fst
          = some ⟨"siteZ", "GENE3", "Tcell", [some (2/5)]⟩
        rw [show groupOf (filteredRows [⟨"siteZ", "GENE3", "Tcell", [some ((2:ℚ)/5)]⟩] 0)
          ("GENE3", "Tcell") = [⟨"siteZ", "GENE3", "Tcell", [some ((2:ℚ)/5)]⟩]
          from rfl, hidx]
        rfl
      exact @selectRepresentatives_cons_some_ok
        (fun k => (idxmaxFirst (groupOf
          (filteredRows [⟨"siteZ", "GENE3", "Tcell", [some ((2:ℚ)/5)]⟩] 0) k)).map
          Prod.fst)
        ("GENE3", "Tcell") [] ⟨"siteZ", "GENE3", "Tcell", [some (2/5)]⟩ [] hf rfl
    obtain ⟨r, hrmem, hsome, hee⟩ :=
      (claim_C8_allNA_group_aborts_and_never_wins
        [⟨"siteZ", "GENE3", "Tcell", [some (2/5)]⟩] 0).1 _ heval _
        (List.mem_cons_self _ _)
    exact ⟨r, hrmem, hsome, hee⟩

/-- C4 counterexample: a processed site flagged as a germline SNP gets
`GlobalFilterStatus = 'GermlineSNP'` but does **not** appear in the
Phase-4 output matrix — non-PASS sites are omitted, not recorded. -/
theorem claim_C4_nonpass_site_omitted :
    globalStatus 4 ⟨"1:20:A>G", true, 9999⟩ = "GermlineSNP"
    ∧ phase4MatrixRows 4 [⟨"1:20:A>G", true, 9999⟩] = [] :=
  ⟨rfl, rfl⟩

/-- C4 (amended): the Phase-4 quantifier computes a `GlobalFilterStatus`
for every processed site but emits only the sites whose status is PASS
(each carrying status `'PASS'`); germline-SNP and splice-filtered sites
are omitted from the matrix.  Downstream Phase-5 collation retains
exactly the rows whose `GlobalFilterStatus` equals `'PASS'`. -/
theorem claim_C4_only_pass_rows_emitted_and_collated
    (splice_site_threshold : ℕ) (sites : List SiteInfo)
    (x st : String) (rows : List P4Row) (p : P4Row) :
    ((x, st) ∈ phase4MatrixRows splice_site_threshold sites
      ↔ st = "PASS" ∧ ∃ s ∈ sites, s.siteID = x
          ∧ globalStatus splice_site_threshold s = "PASS")
    ∧ (p ∈ phase5PassRows rows ↔ p ∈ rows ∧ p.globalFilterStatus = "PASS") := by
  constructor
  · simp only [phase4MatrixRows, List.mem_map, List.mem_filter, decide_eq_true_eq]
    constructor
    · rintro ⟨s, ⟨hs, hp⟩, he⟩
      obtain ⟨h1, h2⟩ := Prod.mk.inj he
      refine ⟨?_, s, hs, h1, hp⟩
      rw [← h2]
      exact hp
    · rintro ⟨hst, s, hs, h1, hp⟩
      exact ⟨s, ⟨hs, hp⟩, by rw [h1, hp, hst]⟩
  · simp only [phase5PassRows, List.mem_filter, decide_eq_true_eq]

theorem bhAux_spec (n : ℕ) (α : ℚ) (hn : 0 < n) (hα : α < 1) (i : ℕ) (l : List ℚ) :
    ((bhAux n α i l).1 = true ↔ (bhAux n α i l).2.1 ≤ α)
    ∧ ∀ pr ∈ (bhAux n α i l).2.2, (pr.1 = true ↔ pr.2 ≤ α) := by
  induction l generalizing i with
  | nil =>
    constructor
    · simp only [bhAux]
      constructor
      · intro h
        exact absurd h (by simp)
      · intro h
        linarith
    · intro pr hpr
      simp [bhAux] at hpr
  | cons p rest ih =>
    have hnQ : (0 : ℚ) < (n : ℚ) := by exact_mod_cast hn
    have he : (0 : ℚ) < ((i : ℚ) + 1) / (n : ℚ) := by positivity
    have hiq := ih (i + 1)
    have hhead : ((bhAux n α i (p :: rest)).1 = true
        ↔ (bhAux n α i (p :: rest)).2.1 ≤ α) := by
      show ((decide (p ≤ (((i : ℚ) + 1) / (n : ℚ)) * α)
          || (bhAux n α (i+1) rest).1) = true
        ↔ min (p / (((i : ℚ) + 1) / (n : ℚ))) (bhAux n α (i+1) rest).2.1 ≤ α)
      rw [Bool.or_eq_true, decide_eq_true_eq, min_le_iff]
      constructor
      · rintro (h | h)
        · exact Or.inl ((div_le_iff₀ he).mpr (by rwa [mul_comm]))
        · exact Or.inr (hiq.1.mp h)
      · rintro (h | h)
        · exact Or.inl (by rw [mul_comm]; exact (div_le_iff₀ he).mp h)
        · exact Or.inr (hiq.1.mpr h)
    refine ⟨hhead, ?_⟩
    intro pr hpr
    have hpr2 : pr = ((bhAux n α i (p :: rest)).1, (bhAux n α i (p :: rest)).2.1)
        ∨ pr ∈ (bhAux n α (i+1) rest).2.2 := by
      have : (bhAux n α i (p :: rest)).2.2
          = ((bhAux n α i (p :: rest)).1, (bhAux n α i (p :: rest)).2.1)
            :: (bhAux n α (i+1) rest).2.2 := rfl
      rw [this] at hpr
      exact List.mem_cons.mp hpr
    rcases hpr2 with rfl | h2
    · exact hhead
    · exact hiq.2 pr h2

/-- C7 counterexample: on the single p-value `0.05` with threshold
`0.05` the q-value equals the threshold exactly and the row **is**
marked significant, contradicting the claim that rows with q-value equal
to the threshold are not significant. -/
theorem claim_C7_q_equal_threshold_is_significant :
    fdrcorrection [1/20] (1/20) = [(true, 1/20)] ∧ ¬((1/20 : ℚ) < 1/20) := by
  constructor
  · have hsort : argsortIdx [(1 : ℚ)/20] = [0] := by
      unfold argsortIdx
      rw [show List.range ([(1 : ℚ)/20]).length = [0] from rfl,
        List.mergeSort_singleton]
    unfold fdrcorrection bhPairsSorted
    rw [hsort]
    norm_num [bhAux, min_def]
    rfl
  · norm_num

/-- C7 (amended): in both FDR correctors a row is marked significant
(`reject` from statsmodels, stored as the `FDR_significant` /
`Significant` column) iff its Benjamini–Hochberg q-value is **at most**
the alpha passed to `multipletests` (0.05 at both call sites); a row
whose q-value equals the threshold is significant.  (The reduced output
table of `process_fastqtl_results_p8.py` line 68 additionally applies a
strict `<` filter on the q-value.) -/
theorem claim_C7_significant_iff_q_le_alpha (pvals : List ℚ) (α : ℚ)
    (pr : Bool × ℚ) (hα : α < 1) (h : pr ∈ fdrcorrection pvals α) :
    pr.1 = true ↔ pr.2 ≤ α := by
  unfold fdrcorrection at h
  simp only [List.mem_map, List.mem_range] at h
  obtain ⟨k, hk, hpr⟩ := h
  rw [← hpr]
  by_cases hm : (argsortIdx pvals).indexOf k < (bhPairsSorted pvals α).length
  · have hmem : (bhPairsSorted pvals α).getD ((argsortIdx pvals).indexOf k)
        (false, 1) ∈ bhPairsSorted pvals α := by
      rw [List.getD_eq_getElem?_getD, List.getElem?_eq_getElem hm]
      exact List.getElem_mem _
    have hn : 0 < pvals.length := by omega
    exact (bhAux_spec pvals.length α hn hα 0
      ((argsortIdx pvals).map (fun i => pvals.getD i 0))).2 _ hmem
  · rw [List.getD_eq_getElem?_getD, List.getElem?_eq_none (by omega)]
    constructor
    · intro hfalse
      exact absurd hfalse (by simp)
    · intro h1
      exact absurd h1 (by simp; linarith)

/-- Witness for `claim_C7_significant_iff_q_le_alpha`: the single
p-value `0.01` at `α = 0.05` is marked significant with q-value
`0.01 ≤ 0.05`. -/
theorem claim_C7_significant_iff_q_le_alpha_witness :
    (true, (1 : ℚ)/100).1 = true ↔ (true, (1 : ℚ)/100).2 ≤ 1/20 := by
  have hsort : argsortIdx [(1 : ℚ)/100] = [0] := by
    unfold argsortIdx
    rw [show List.range ([(1 : ℚ)/100]).length = [0] from rfl,
      List.mergeSort_singleton]
  have heval : fdrcorrection [(1 : ℚ)/100] (1/20) = [(true, 1/100)] := by
    unfold fdrcorrection bhPairsSorted
    rw [hsort]
    norm_num [bhAux, min_def]
    rfl
  exact claim_C7_significant_iff_q_le_alpha [1/100] (1/20) (true, 1/100)
    (by norm_num) (by rw [heval]; exact List.mem_cons_self _ _)

/-- C5: on the no-matching-files and zero-rows-loaded fatal conditions,
both stages print a FATAL-prefixed (or, for the zero-rows path of
Phase 5, an unprefixed) stderr message but exit with code 0, not 1 —
the `return` after the print falls through the `try/except` of
`__main__`, which only exits 1 on an exception. -/
theorem claim_C5_fatal_paths_exit_zero :
    run_phase5_collation_model [] [] 0
        = (0, ["FATAL ERROR: No files found matching pattern"])
    ∧ run_phase5_collation_model ["file1"] [] 0
        = (0, ["No data successfully processed. Exiting."])
    ∧ run_fdr_correction_model [] (1/20)
        = (0, ["FATAL ERROR: No valid data loaded for correction. Exiting."], none)
    ∧ (run_phase5_collation_model [] [] 0).1 ≠ 1
    ∧ (run_fdr_correction_model [] (1/20)).1 ≠ 1 :=
  ⟨rfl, rfl, rfl, by decide, by decide⟩

theorem mem_dedupFirst_iff (l : List String) (a : String) :
    a ∈ dedupFirst l ↔ a ∈ l := by
  induction l with
  | nil => simp [dedupFirst]
  | cons x rest ih =>
    rw [dedupFirst, List.mem_cons, List.mem_cons, List.mem_filter]
    simp only [decide_eq_true_eq]
    constructor
    · rintro (rfl | ⟨h, _⟩)
      · exact Or.inl rfl
      · exact Or.inr (ih.mp h)
    · rintro (rfl | h)
      · exact Or.inl rfl
      · by_cases hax : a = x
        · exact Or.inl hax
        · exact Or.inr ⟨ih.mpr h, hax⟩

/-- C10: the saved phenotype matrix and the saved covariate matrix carry
exactly the same individual set, namely the intersection of the
phenotype's individuals with the union of the individuals of the loaded
covariate tables; a phenotype individual absent from every covariate
source is dropped from both outputs. -/
theorem claim_C10_saved_individual_sets_agree
    (phenoIdx aei : List String) (pcs peer : Option (List String)) (a : String) :
    savedPhenotypeIndex phenoIdx (covariateTables aei pcs peer)
        = savedCovariateIndex phenoIdx (covariateTables aei pcs peer)
    ∧ (a ∈ savedPhenotypeIndex phenoIdx (covariateTables aei pcs peer)
        ↔ a ∈ phenoIdx ∧ ∃ t ∈ covariateTables aei pcs peer, a ∈ t)
    ∧ ((∀ t ∈ covariateTables aei pcs peer, a ∉ t) →
        a ∉ savedPhenotypeIndex phenoIdx (covariateTables aei pcs peer)) := by
  have hiff : a ∈ savedPhenotypeIndex phenoIdx (covariateTables aei pcs peer)
      ↔ a ∈ phenoIdx ∧ ∃ t ∈ covariateTables aei pcs peer, a ∈ t := by
    unfold savedPhenotypeIndex phase6Individuals mergedCovariateIndex
    rw [List.mem_filter]
    simp only [decide_eq_true_eq, mem_dedupFirst_iff, List.mem_flatten]
  refine ⟨rfl, hiff, fun hnone hmem => ?_⟩
  obtain ⟨-, t, ht, hat⟩ := hiff.mp hmem
  exact hnone t ht hat

/-- Witness for `claim_C10_saved_individual_sets_agree`: phenotype
individual `i2`, present in no covariate source (only the AEI table
`["i1"]` loaded), is dropped from the saved phenotype matrix. -/
theorem claim_C10_saved_individual_sets_agree_witness :
    "i2" ∉ savedPhenotypeIndex ["i1", "i2"] (covariateTables ["i1"] none none) := by
  refine (claim_C10_saved_individual_sets_agree ["i1", "i2"] ["i1"] none none
    "i2").2.2 ?_
  intro t ht
  have ht2 : t ∈ [["i1"]] := ht
  rcases List.mem_cons.mp ht2 with rfl | h
  · decide
  · exact absurd h (List.not_mem_nil _)
